import Mathlib

/-!
Verification of the CPU power-measurement experiment scripts.

The repository's scripts sample Intel RAPL energy counters around a
synthetic load window.  We embed the arithmetic and control decisions of
the relevant Python functions as Lean definitions (rational numbers stand
for Python numerics; filesystem reads become explicit data passed in;
a raised exception becomes an Option/none result) and prove the
specification's testable properties about them.
-/

namespace PowerMeasure

/-! ## Energy delta with wraparound

From src/stresscpumore.py (delta_energy_wrap, lines 45-50), identical in
src/features/freq.py and src/features/dutycyclecpustress.py:

    if curr_j >= prev_j: return curr_j - prev_j
    else:               return (max_j - prev_j) + curr_j
-/

/-- Embeds delta_energy_wrap: the single-domain, wraparound-correcting
energy delta.  The Python comparison curr_j >= prev_j is the test of the
first branch. -/
def delta_energy_wrap (prev_j curr_j max_j : ℚ) : ℚ :=
  if prev_j ≤ curr_j then curr_j - prev_j
  else (max_j - prev_j) + curr_j

/-! ## Worker-count sizing (CPU full-intensity mode)

From src/stresscpumore.py (stress_cpu, lines 61-76), identical logic in
src/stresscpu.py and src/features/freq.py:

    total_cores = multiprocessing.cpu_count()
    cores_to_use = max(1, int(total_cores * target_fraction))

Python's int() on a float truncates toward zero. -/

/-- Python's int() conversion on a real number: truncation toward zero. -/
def pyInt (q : ℚ) : ℤ :=
  if 0 ≤ q then ⌊q⌋ else ⌈q⌉

/-- Embeds the worker-count computation of stress_cpu:
max(1, int(total_cores * target_fraction)). -/
def stress_cpu_workers (total_cores : ℕ) (target_fraction : ℚ) : ℤ :=
  max 1 (pyInt ((total_cores : ℚ) * target_fraction))

end PowerMeasure

namespace PowerMeasure

/-- Claim C1: for 0 ≤ prev ≤ maxRange and 0 ≤ curr ≤ maxRange,
delta_energy_wrap returns curr − prev when curr ≥ prev and
(maxRange − prev) + curr when curr < prev, the result always lies in
[0, maxRange], and delta_energy_wrap 95 5 100 = 10. -/
theorem delta_energy_wrap_correct (prev curr maxR : ℚ)
    (hp0 : 0 ≤ prev) (hpM : prev ≤ maxR) (hc0 : 0 ≤ curr) (hcM : curr ≤ maxR) :
    (prev ≤ curr → delta_energy_wrap prev curr maxR = curr - prev) ∧
    (curr < prev → delta_energy_wrap prev curr maxR = (maxR - prev) + curr) ∧
    0 ≤ delta_energy_wrap prev curr maxR ∧
    delta_energy_wrap prev curr maxR ≤ maxR ∧
    delta_energy_wrap 95 5 100 = 10 := by
  unfold delta_energy_wrap
  rcases le_or_lt prev curr with h | h
  · refine ⟨fun _ => by simp [h], fun hc => absurd h (not_le.mpr hc), ?_, ?_, by norm_num⟩
    · simp only [if_pos h]; linarith
    · simp only [if_pos h]; linarith
  · refine ⟨fun hc => absurd hc (not_le.mpr h), fun _ => by simp [not_le.mpr h], ?_, ?_, by norm_num⟩
    · simp only [if_neg (not_le.mpr h)]; linarith
    · simp only [if_neg (not_le.mpr h)]; linarith

/-- Witness for C1: instantiates the theorem at prev = 95, curr = 5,
maxRange = 100, the spec's wrap scenario. -/
theorem delta_energy_wrap_correct_witness :
    delta_energy_wrap 95 5 100 = 10 :=
  (delta_energy_wrap_correct 95 5 100 (by norm_num) (by norm_num)
    (by norm_num) (by norm_num)).2.2.2.2

end PowerMeasure

namespace PowerMeasure

/-- Claim C3: for cores ≥ 1 and fraction ∈ (0,1], the worker count
equals max(1, floor(cores × fraction)), is at least 1, equals cores when
fraction = 1, and equals 4 when cores = 8 and fraction = 1/2. -/
theorem stress_cpu_workers_correct (cores : ℕ) (frac : ℚ)
    (hc : 1 ≤ cores) (hf0 : 0 < frac) (hf1 : frac ≤ 1) :
    stress_cpu_workers cores frac = max 1 ⌊(cores : ℚ) * frac⌋ ∧
    1 ≤ stress_cpu_workers cores frac ∧
    (frac = 1 → stress_cpu_workers cores frac = cores) ∧
    stress_cpu_workers 8 (1/2) = 4 := by
  have hnn : (0 : ℚ) ≤ (cores : ℚ) * frac :=
    mul_nonneg (Nat.cast_nonneg cores) hf0.le
  have hpy : pyInt ((cores : ℚ) * frac) = ⌊(cores : ℚ) * frac⌋ := by
    unfold pyInt; simp [hnn]
  refine ⟨by unfold stress_cpu_workers; rw [hpy], le_max_left _ _, fun h1 => ?_, ?_⟩
  · subst h1
    unfold stress_cpu_workers
    rw [hpy, mul_one, Int.floor_natCast]
    exact max_eq_right (by exact_mod_cast hc)
  · unfold stress_cpu_workers pyInt
    norm_num

/-- Witness for C3: instantiates the theorem at cores = 8,
fraction = 1/2 (the spec scenario), yielding 4 workers. -/
theorem stress_cpu_workers_correct_witness :
    stress_cpu_workers 8 (1/2) = 4 :=
  (stress_cpu_workers_correct 8 (1/2) (by norm_num) (by norm_num)
    (by norm_num)).2.2.2

/-! ## Duty-cycle phase lengths

From src/features/dutycyclecpustress.py (cpu_worker, lines 56-69):

    active_time = a * interval
    idle_time = (1 - a) * interval
-/

/-- Embeds the active burn-phase length of one duty cycle. -/
def active_time (a interval : ℚ) : ℚ := a * interval

/-- Embeds the idle (suspended) phase length of one duty cycle. -/
def idle_time (a interval : ℚ) : ℚ := (1 - a) * interval

/-- Claim C4: for fraction ∈ [0,1] and intervalSeconds > 0, each duty
cycle has an active phase of fraction × intervalSeconds and an idle phase
of (1 − fraction) × intervalSeconds whose sum is exactly intervalSeconds;
at interval = 10 and fraction = 3/10 the phases are 3 s and 7 s. -/
theorem duty_cycle_phases_correct (a interval : ℚ)
    (h0 : 0 ≤ a) (h1 : a ≤ 1) (hi : 0 < interval) :
    active_time a interval = a * interval ∧
    idle_time a interval = (1 - a) * interval ∧
    active_time a interval + idle_time a interval = interval ∧
    active_time (3/10) 10 = 3 ∧ idle_time (3/10) 10 = 7 := by
  refine ⟨rfl, rfl, ?_, by norm_num [active_time], by norm_num [idle_time]⟩
  unfold active_time idle_time
  ring

/-- Witness for C4: instantiates the theorem at fraction = 3/10 and
interval = 10, the spec scenario. -/
theorem duty_cycle_phases_correct_witness :
    active_time (3/10) 10 + idle_time (3/10) 10 = 10 :=
  (duty_cycle_phases_correct (3/10) 10 (by norm_num) (by norm_num)
    (by norm_num)).2.2.1

end PowerMeasure

namespace PowerMeasure

/-! ## Multi-domain energy samples

A RAPL sample (Python dict from domain name to joules) is embedded as an
association list in insertion order; Python dicts have distinct keys, and
indexing a dict is lookup of the (unique) matching key.

From src/memory/memorystressbw.py (compute_rapl_delta, lines 50-56),
identical in src/advanced/bwdatatransfer.py:

    delta = dict()
    for k in after.keys():
        if k in before:
            delta[k] = after[k] - before[k]
    return delta
-/

/-- An energy sample: domain name to joules, in insertion order. -/
abbrev EnergySample : Type := List (String × ℚ)

/-- Lookup of a key in a sample (Python dict indexing; for a dict the
key occurs at most once, so first match is the match). -/
def slookup (d : EnergySample) (k : String) : Option ℚ :=
  match d with
  | [] => none
  | kv :: rest => if kv.1 = k then some kv.2 else slookup rest k

/-- The key list of a sample, in order (Python dict .keys()). -/
def skeys (d : EnergySample) : List String :=
  d.map Prod.fst

/-- Embeds compute_rapl_delta: the loop over after.keys() keeps the keys
also present in before and subtracts, with no wraparound correction. -/
def compute_rapl_delta (before after : EnergySample) : EnergySample :=
  match after with
  | [] => []
  | kv :: rest =>
    match slookup before kv.1 with
    | some bv => (kv.1, kv.2 - bv) :: compute_rapl_delta before rest
    | none => compute_rapl_delta before rest

theorem skeys_nil : skeys ([] : EnergySample) = [] := rfl

theorem skeys_cons (kv : String × ℚ) (rest : EnergySample) :
    skeys (kv :: rest) = kv.1 :: skeys rest := rfl

theorem slookup_cons_ne (kv : String × ℚ) (rest : EnergySample)
    (k : String) (h : kv.1 ≠ k) : slookup (kv :: rest) k = slookup rest k := by
  simp [slookup, h]

theorem slookup_isSome_iff (d : EnergySample) (k : String) :
    (slookup d k).isSome ↔ k ∈ skeys d := by
  induction d with
  | nil => simp [slookup, skeys]
  | cons kv rest ih =>
    rw [skeys_cons, List.mem_cons]
    by_cases h : kv.1 = k
    · subst h
      simp [slookup]
    · rw [slookup_cons_ne kv rest k h, ih]
      simp [Ne.symm h]

theorem slookup_eq_none_iff (d : EnergySample) (k : String) :
    slookup d k = none ↔ k ∉ skeys d := by
  rw [← slookup_isSome_iff, Option.isSome_iff_ne_none]
  tauto

theorem mem_skeys_delta_iff (before after : EnergySample) (k : String) :
    k ∈ skeys (compute_rapl_delta before after) ↔
      k ∈ skeys after ∧ k ∈ skeys before := by
  induction after with
  | nil => simp [compute_rapl_delta, skeys]
  | cons kv rest ih =>
    rcases hb : slookup before kv.1 with _ | bv
    · have hstep : compute_rapl_delta before (kv :: rest) =
        compute_rapl_delta before rest := by
        simp only [compute_rapl_delta, hb]
      rw [hstep, ih, skeys_cons, List.mem_cons]
      by_cases hk : k = kv.1
      · subst hk
        have hnb : kv.1 ∉ skeys before := (slookup_eq_none_iff before kv.1).mp hb
        simp [hnb]
      · simp [hk]
    · have hstep : compute_rapl_delta before (kv :: rest) =
        (kv.1, kv.2 - bv) :: compute_rapl_delta before rest := by
        simp only [compute_rapl_delta, hb]
      rw [hstep, skeys_cons, List.mem_cons, ih, skeys_cons, List.mem_cons]
      by_cases hk : k = kv.1
      · subst hk
        have hmb : kv.1 ∈ skeys before := by
          rw [← slookup_isSome_iff, hb]; rfl
        simp [hmb]
      · simp [hk]

theorem slookup_delta (before after : EnergySample) (k : String)
    (av bv : ℚ) (ha : slookup after k = some av)
    (hb : slookup before k = some bv) :
    slookup (compute_rapl_delta before after) k = some (av - bv) := by
  induction after with
  | nil => simp [slookup] at ha
  | cons kv rest ih =>
    by_cases hk : kv.1 = k
    · subst hk
      simp [slookup] at ha
      have hstep : compute_rapl_delta before (kv :: rest) =
        (kv.1, kv.2 - bv) :: compute_rapl_delta before rest := by
        simp only [compute_rapl_delta, hb]
      rw [hstep]
      simp [slookup, ha]
    · rw [slookup_cons_ne kv rest k hk] at ha
      rcases hbk : slookup before kv.1 with _ | bvk
      · have hstep : compute_rapl_delta before (kv :: rest) =
          compute_rapl_delta before rest := by
          simp only [compute_rapl_delta, hbk]
        rw [hstep]
        exact ih ha
      · have hstep : compute_rapl_delta before (kv :: rest) =
          (kv.1, kv.2 - bvk) :: compute_rapl_delta before rest := by
          simp only [compute_rapl_delta, hbk]
        rw [hstep]
        rw [slookup_cons_ne (kv.1, kv.2 - bvk) _ k hk]
        exact ih ha

end PowerMeasure

namespace PowerMeasure

/-- Claim C2: compute_rapl_delta returns a mapping whose key set is
exactly the intersection of the key sets of before and after, whose value
at every common key k is after[k] − before[k] with no wraparound
correction, and on before = [core 10, dram 5], after = [core 12.5, pkg 1]
it returns exactly [core 2.5]. -/
theorem compute_rapl_delta_correct (before after : EnergySample) :
    (∀ k, k ∈ skeys (compute_rapl_delta before after) ↔
        k ∈ skeys after ∧ k ∈ skeys before) ∧
    (∀ k av bv, slookup after k = some av → slookup before k = some bv →
        slookup (compute_rapl_delta before after) k = some (av - bv)) ∧
    compute_rapl_delta [("core", 10), ("dram", 5)] [("core", 25/2), ("pkg", 1)]
      = [("core", 5/2)] := by
  refine ⟨fun k => mem_skeys_delta_iff before after k,
    fun k av bv ha hb => slookup_delta before after k av bv ha hb, ?_⟩
  show compute_rapl_delta _ _ = _
  simp +decide only [compute_rapl_delta, slookup]
  norm_num

/-- Witness for C2: the value clause applied at the spec scenario,
before = [core 10], after = [core 12.5], at key "core". -/
theorem compute_rapl_delta_correct_witness :
    slookup (compute_rapl_delta [("core", 10), ("dram", 5)]
      [("core", 25/2), ("pkg", 1)]) "core" = some (25/2 - 10) :=
  (compute_rapl_delta_correct [("core", 10), ("dram", 5)]
      [("core", 25/2), ("pkg", 1)]).2.1 "core" (25/2) 10
    (by norm_num [slookup]) (by norm_num [slookup])

theorem skeys_delta_of_keys_subset (before after : EnergySample)
    (h : ∀ k, k ∈ skeys after → k ∈ skeys before) :
    skeys (compute_rapl_delta before after) = skeys after := by
  induction after with
  | nil => rfl
  | cons kv rest ih =>
    have hmem : kv.1 ∈ skeys before := h kv.1 (by simp [skeys_cons])
    rcases hb : slookup before kv.1 with _ | bv
    · exact absurd ((slookup_eq_none_iff before kv.1).mp hb) (not_not_intro hmem)
    · have hstep : compute_rapl_delta before (kv :: rest) =
        (kv.1, kv.2 - bv) :: compute_rapl_delta before rest := by
        simp only [compute_rapl_delta, hb]
      rw [hstep, skeys_cons, skeys_cons,
        ih (fun k hk => h k (by simp [skeys_cons, hk]))]

/-- Claim C9: the multi-domain delta of a sample with itself has exactly
the keys of the sample and maps every key to 0. -/
theorem compute_rapl_delta_self_zero (s : EnergySample) :
    skeys (compute_rapl_delta s s) = skeys s ∧
    (∀ k, k ∈ skeys s → slookup (compute_rapl_delta s s) k = some 0) := by
  refine ⟨skeys_delta_of_keys_subset s s (fun _ hk => hk), fun k hk => ?_⟩
  obtain ⟨v, hv⟩ := Option.isSome_iff_exists.mp
    ((slookup_isSome_iff s k).mpr hk)
  have hd := slookup_delta s s k v v hv hv
  rwa [sub_self] at hd

/-- Witness for C9: the self-delta of the one-domain sample [core 10]
maps "core" to 0. -/
theorem compute_rapl_delta_self_zero_witness :
    slookup (compute_rapl_delta [("core", 10)] [("core", 10)]) "core"
      = some 0 :=
  (compute_rapl_delta_self_zero [("core", 10)]).2 "core"
    (by simp [skeys])

end PowerMeasure

namespace PowerMeasure

/-! ## Average power

From src/advanced/bwdatatransfer.py (main, lines 172-178):

    elapsed = duration
    if delta:
        for k, v in delta.items():
            power = v / elapsed

Python raises ZeroDivisionError when elapsed = 0 (embedded as none); any
other elapsed, positive or negative, performs the division. -/

/-- Embeds the average-power computation of main: joules divided by
elapsed seconds, with Python's ZeroDivisionError as none. -/
def averagePower (joules elapsed : ℚ) : Option ℚ :=
  if elapsed = 0 then none else some (joules / elapsed)

/-- Counterexample for C5: at elapsedSeconds = −5 ≤ 0 the code performs
the division and returns −2 watts instead of failing. -/
theorem averagePower_neg_counterexample :
    (-5 : ℚ) ≤ 0 ∧ averagePower 10 (-5) = some (-2) := by
  constructor
  · norm_num
  · unfold averagePower
    norm_num

/-- Claim C5 amended: averagePower returns joules / elapsedSeconds for
every elapsedSeconds ≠ 0 (including negative values) and fails with a
ZeroDivisionError exactly when elapsedSeconds = 0. -/
theorem averagePower_correct (joules elapsed : ℚ) :
    (elapsed ≠ 0 → averagePower joules elapsed = some (joules / elapsed)) ∧
    (averagePower joules elapsed = none ↔ elapsed = 0) := by
  unfold averagePower
  constructor
  · intro h
    rw [if_neg h]
  · by_cases h : elapsed = 0 <;> simp [h]

/-- Witness for C5: 10 joules over 2 seconds is 5 watts. -/
theorem averagePower_correct_witness :
    averagePower 10 2 = some (10 / 2) :=
  (averagePower_correct 10 2).1 (by norm_num)

end PowerMeasure

namespace PowerMeasure

/-! ## RAPL domain discovery

From src/stresscpumore.py (find_rapl_domain, lines 22-33), identical in
src/features/dutycyclecpustress.py, src/features/freq.py and
src/features/corefreq.py:

    for path in glob.glob("/sys/class/powercap/intel-rapl:*"):
        name_file = os.path.join(path, "name")
        try:
            with open(name_file) as f:
                if f.read().strip() == domain_name:
                    return path
        except FileNotFoundError:
            continue
    raise RuntimeError(...)

A scanned power-capping entry is embedded as its identifier, the stripped
content of its name file (none when unreadable) and its energy counter in
microjoules (none when unreadable). -/

/-- One scanned power-capping sysfs entry. -/
structure PowercapEntry where
  path : String
  nameFile : Option String
  energyFile : Option ℤ
deriving DecidableEq

/-- Embeds find_rapl_domain: returns the path of the first entry whose
readable name equals the requested domain name; an entry whose name file
is unreadable is skipped (the except branch continues); none embeds the
raised RuntimeError. -/
def find_rapl_domain (entries : List PowercapEntry) (domain_name : String) :
    Option String :=
  match entries with
  | [] => none
  | e :: rest =>
    match e.nameFile with
    | some n =>
      if n = domain_name then some e.path
      else find_rapl_domain rest domain_name
    | none => find_rapl_domain rest domain_name

/-- The claim's discovery behavior, following its words: an entry whose
name file is unreadable is matched under its raw entry identifier as a
fallback name.  Written only to compare against find_rapl_domain. -/
def discoverDomain_claimed (entries : List PowercapEntry)
    (domain_name : String) : Option String :=
  match entries with
  | [] => none
  | e :: rest =>
    if e.nameFile.getD e.path = domain_name then some e.path
    else discoverDomain_claimed rest domain_name

theorem find_rapl_domain_cons_none (e : PowercapEntry)
    (rest : List PowercapEntry) (dn : String) (h : e.nameFile = none) :
    find_rapl_domain (e :: rest) dn = find_rapl_domain rest dn := by
  simp only [find_rapl_domain, h]

theorem find_rapl_domain_cons_some (e : PowercapEntry)
    (rest : List PowercapEntry) (dn n : String) (h : e.nameFile = some n) :
    find_rapl_domain (e :: rest) dn =
      if n = dn then some e.path else find_rapl_domain rest dn := by
  simp only [find_rapl_domain, h]

/-- Counterexample for C6: an entry whose name file is unreadable and
whose raw identifier equals the requested name.  The claim's fallback
would return the entry, but the code skips it and fails. -/
theorem find_rapl_domain_no_fallback_counterexample :
    find_rapl_domain [⟨"intel-rapl:0", none, none⟩] "intel-rapl:0"
        = none ∧
    discoverDomain_claimed [⟨"intel-rapl:0", none, none⟩] "intel-rapl:0"
        = some "intel-rapl:0" := by
  constructor
  · rfl
  · simp +decide only [discoverDomain_claimed, Option.getD]

/-- Claim C6 amended: find_rapl_domain returns the path of the first
scanned entry whose readable declared name equals the requested name by
case-sensitive exact comparison; entries whose name file is unreadable
are skipped entirely (no fallback to the raw identifier); it fails with
the not-found error exactly when no entry has a readable name equal to
the requested one. -/
theorem find_rapl_domain_correct (entries : List PowercapEntry)
    (dn : String) :
    (find_rapl_domain entries dn = none ↔
      ∀ e ∈ entries, e.nameFile ≠ some dn) ∧
    (∀ pre e post, entries = pre ++ e :: post →
      (∀ e2 ∈ pre, e2.nameFile ≠ some dn) → e.nameFile = some dn →
      find_rapl_domain entries dn = some e.path) := by
  constructor
  · induction entries with
    | nil => simp [find_rapl_domain]
    | cons e rest ih =>
      rcases hnf : e.nameFile with _ | n
      · rw [find_rapl_domain_cons_none e rest dn hnf, ih]
        constructor
        · intro h e2 h2
          rcases List.mem_cons.mp h2 with h2 | h2
          · subst h2; rw [hnf]; intro hc; cases hc
          · exact h e2 h2
        · intro h e2 h2
          exact h e2 (List.mem_cons_of_mem e h2)
      · rw [find_rapl_domain_cons_some e rest dn n hnf]
        by_cases hn : n = dn
        · subst hn
          simp only [if_pos rfl]
          constructor
          · intro h; cases h
          · intro h
            exact absurd hnf (h e (List.mem_cons_self e rest))
        · rw [if_neg hn, ih]
          constructor
          · intro h e2 h2
            rcases List.mem_cons.mp h2 with h2 | h2
            · subst h2; rw [hnf]
              intro hc
              exact hn (Option.some_inj.mp hc)
            · exact h e2 h2
          · intro h e2 h2
            exact h e2 (List.mem_cons_of_mem e h2)
  · intro pre e post heq hpre hmatch
    subst heq
    induction pre with
    | nil =>
      rw [List.nil_append, find_rapl_domain_cons_some e post dn dn hmatch,
        if_pos rfl]
    | cons p pre2 ih =>
      have hp : p.nameFile ≠ some dn := hpre p (List.mem_cons_self p pre2)
      have hrest : ∀ e2 ∈ pre2, e2.nameFile ≠ some dn :=
        fun e2 h2 => hpre e2 (List.mem_cons_of_mem p h2)
      rw [List.cons_append]
      rcases hnf : p.nameFile with _ | n
      · rw [find_rapl_domain_cons_none p _ dn hnf]
        exact ih hrest
      · have hn : n ≠ dn := by
          intro hc; subst hc
          exact hp hnf
        rw [find_rapl_domain_cons_some p _ dn n hnf, if_neg hn]
        exact ih hrest

/-- Witness for C6: two entries named package-0 and core; requesting
"core" returns the second entry's path. -/
theorem find_rapl_domain_correct_witness :
    find_rapl_domain [⟨"intel-rapl:0", some "package-0", none⟩,
      ⟨"intel-rapl:0:0", some "core", none⟩] "core"
      = some "intel-rapl:0:0" :=
  (find_rapl_domain_correct [⟨"intel-rapl:0", some "package-0", none⟩,
      ⟨"intel-rapl:0:0", some "core", none⟩] "core").2
    [⟨"intel-rapl:0", some "package-0", none⟩]
    ⟨"intel-rapl:0:0", some "core", none⟩ [] rfl
    (by intro e2 h2; rw [List.mem_singleton] at h2; subst h2; decide) rfl

end PowerMeasure

namespace PowerMeasure

/-! ## Fraction validation before spawning workers

From src/stresscpumore.py (main, lines 98-101):

    a = args.a
    if not (0 <= a <= 1):
        print("Error: CPU fraction 'a' must be between 0 and 1.")
        return
    ...
    processes = stress_cpu(a)

From src/advanced/bwdatatransfer.py (main, lines 140-146):

    if not (0 < a <= 1):
        print("Error: memory fraction must be 0-1")
        return

The result is none when main returns at the validation step (no worker
spawned) and some n when it goes on to spawn n workers. -/

/-- Embeds the validation-then-spawn prefix of the CPU-stress main: the
accepted range is 0 ≤ a ≤ 1, and acceptance spawns stress_cpu_workers
cores a workers. -/
def cpu_main_workers (cores : ℕ) (a : ℚ) : Option ℤ :=
  if 0 ≤ a ∧ a ≤ 1 then some (stress_cpu_workers cores a) else none

/-- Embeds the validation-then-spawn prefix of the bandwidth main: the
accepted range is 0 < a ≤ 1, and acceptance spawns the requested worker
count. -/
def bw_main_workers (a : ℚ) (workers : ℕ) : Option ℕ :=
  if 0 < a ∧ a ≤ 1 then some workers else none

/-- Counterexample for C7: fraction 0 lies outside (0,1], yet the
CPU-stress main accepts it and spawns one worker. -/
theorem cpu_main_accepts_zero_counterexample :
    ¬ (0 < (0 : ℚ) ∧ (0 : ℚ) ≤ 1) ∧ cpu_main_workers 8 0 = some 1 := by
  constructor
  · intro h
    exact absurd h.1 (lt_irrefl 0)
  · unfold cpu_main_workers stress_cpu_workers pyInt
    norm_num

/-- Claim C7 amended: the bandwidth flow rejects every fraction outside
(0,1] before any worker is spawned; the CPU-stress flow accepts the wider
range [0,1], rejecting only fractions outside [0,1] before any worker is
spawned, so fraction 0 is accepted there and spawns one full-intensity
worker. -/
theorem fraction_validation_correct (cores workers : ℕ) (a : ℚ) :
    ((a < 0 ∨ 1 < a) → cpu_main_workers cores a = none) ∧
    (¬ (0 < a ∧ a ≤ 1) → bw_main_workers a workers = none) ∧
    ((0 ≤ a ∧ a ≤ 1) →
      cpu_main_workers cores a = some (stress_cpu_workers cores a)) ∧
    cpu_main_workers cores 0 = some 1 := by
  refine ⟨fun h => ?_, fun h => ?_, fun h => ?_, ?_⟩
  · unfold cpu_main_workers
    rw [if_neg]
    intro hc
    rcases h with h | h
    · exact absurd hc.1 (not_le.mpr h)
    · exact absurd hc.2 (not_le.mpr h)
  · unfold bw_main_workers
    rw [if_neg h]
  · unfold cpu_main_workers
    rw [if_pos h]
  · unfold cpu_main_workers stress_cpu_workers pyInt
    norm_num

/-- Witness for C7: fraction 2 is rejected by the CPU-stress main and
fraction 0 by the bandwidth main, with no worker spawned. -/
theorem fraction_validation_correct_witness :
    cpu_main_workers 8 2 = none ∧ bw_main_workers 0 4 = none :=
  ⟨(fraction_validation_correct 8 4 2).1 (Or.inr (by norm_num)),
   (fraction_validation_correct 8 4 0).2.1 (by norm_num)⟩

/-! ## Session ordering

From src/stresscpumore.py (main, lines 111-127):

    measure_cpu("before")                 -- baseline utilization
    e_before = read_energy_j(rapl_path)   -- baseline energy
    processes = stress_cpu(a)             -- workers start
    time.sleep(2); measure_cpu("during")  -- interior sample
    time.sleep(max(0, duration - 2))      -- remainder of the window
    stop_processes(processes)             -- terminate + join(timeout=1)
    e_after = read_energy_j(rapl_path)    -- final energy

From src/features/dutycyclecpustress.py (main, lines 126-144): the same
order, with the interior utilization sample covering the whole window and
stop_processes placed in a finally block ahead of the final read.

Each main is straight-line code; it is embedded as its trace of
measurement and worker-lifecycle events in program order. -/

/-- The observable steps of one stress-session run. -/
inductive SessionEvent where
  | measureUtilBefore
  | readEnergyBefore
  | startWorkers
  | measureUtilDuring
  | sleepRemainder
  | stopWorkers
  | readEnergyAfter
  | reportSummary
deriving DecidableEq, BEq

open SessionEvent

/-- Embeds the event order of main in src/stresscpumore.py. -/
def stresscpumore_trace : List SessionEvent :=
  [measureUtilBefore, readEnergyBefore, startWorkers, measureUtilDuring,
   sleepRemainder, stopWorkers, readEnergyAfter, reportSummary]

/-- Embeds the event order of main in src/features/dutycyclecpustress.py. -/
def dutycycle_trace : List SessionEvent :=
  [measureUtilBefore, readEnergyBefore, startWorkers, measureUtilDuring,
   stopWorkers, readEnergyAfter, reportSummary]

/-- Claim C8: in both session mains, the baseline energy sample strictly
precedes the start of any worker, and the stop-and-join step strictly
precedes the final energy sample; the final sample never precedes the
stop step. -/
theorem session_ordering_correct :
    (stresscpumore_trace.indexOf readEnergyBefore <
        stresscpumore_trace.indexOf startWorkers ∧
      stresscpumore_trace.indexOf stopWorkers <
        stresscpumore_trace.indexOf readEnergyAfter) ∧
    (dutycycle_trace.indexOf readEnergyBefore <
        dutycycle_trace.indexOf startWorkers ∧
      dutycycle_trace.indexOf stopWorkers <
        dutycycle_trace.indexOf readEnergyAfter) := by
  decide

end PowerMeasure

namespace PowerMeasure

/-! ## All-domain energy scan

From src/memory/memorystressbw.py (read_rapl_energy, lines 23-39):

    rapl_data = dict()
    for path in glob.glob("/sys/class/powercap/intel-rapl:*"):
        domain_name = os.path.basename(path)
        if os.path.exists(name_path):
            with open(name_path) as f:
                domain_name = f.read().strip()
        if os.path.exists(energy_path):
            with open(energy_path) as f:
                rapl_data[domain_name] = int(f.read().strip()) / 1e6
    return rapl_data

src/advanced/bwdatatransfer.py (lines 48-62) has the same structure with
sudo-mediated reads.  A dict assignment overwrites an existing key in
place and appends a new key at the end. -/

/-- The effective domain name of a scanned entry: the name-file content
when readable, otherwise the raw entry identifier. -/
def effName (e : PowercapEntry) : String :=
  e.nameFile.getD e.path

/-- Python dict assignment d[k] = v: replaces the value of an existing
key in place, appends a new key at the end. -/
def dinsert (d : EnergySample) (k : String) (v : ℚ) : EnergySample :=
  match d with
  | [] => [(k, v)]
  | kv :: rest => if kv.1 = k then (k, v) :: rest else kv :: dinsert rest k v

/-- The loop body accumulation of read_rapl_energy over the scanned
entries. -/
def read_rapl_energy_aux (acc : EnergySample) :
    List PowercapEntry → EnergySample
  | [] => acc
  | e :: rest =>
    match e.energyFile with
    | some uj =>
      read_rapl_energy_aux (dinsert acc (effName e) ((uj : ℚ) / 1000000)) rest
    | none => read_rapl_energy_aux acc rest

/-- Embeds read_rapl_energy: one sample from scanning every power-capping
entry, starting from the empty dict. -/
def read_rapl_energy (entries : List PowercapEntry) : EnergySample :=
  read_rapl_energy_aux [] entries

/-- The claim's description of the scan result at one name: the reading
of the entry scanned last among those with that effective name and a
readable energy counter, converted to joules.  Written only to compare
against read_rapl_energy. -/
def lastEnergy (entries : List PowercapEntry) (n : String) : Option ℚ :=
  match entries with
  | [] => none
  | e :: rest =>
    match lastEnergy rest n with
    | some v => some v
    | none =>
      match e.energyFile with
      | some uj => if effName e = n then some ((uj : ℚ) / 1000000) else none
      | none => none

theorem dinsert_cons_eq (kv : String × ℚ) (rest : EnergySample) (v : ℚ) :
    dinsert (kv :: rest) kv.1 v = (kv.1, v) :: rest := by
  simp [dinsert]

theorem dinsert_cons_ne (kv : String × ℚ) (rest : EnergySample)
    (k : String) (v : ℚ) (h : kv.1 ≠ k) :
    dinsert (kv :: rest) k v = kv :: dinsert rest k v := by
  simp [dinsert, h]

theorem slookup_dinsert_self (d : EnergySample) (k : String) (v : ℚ) :
    slookup (dinsert d k v) k = some v := by
  induction d with
  | nil => simp [dinsert, slookup]
  | cons kv rest ih =>
    by_cases h : kv.1 = k
    · simp [dinsert, h, slookup]
    · simp only [dinsert, if_neg h]
      rw [slookup_cons_ne kv _ k h]
      exact ih

theorem slookup_dinsert_ne (d : EnergySample) (k : String) (v : ℚ)
    (k2 : String) (h : k ≠ k2) :
    slookup (dinsert d k v) k2 = slookup d k2 := by
  induction d with
  | nil => simp [dinsert, slookup, h]
  | cons kv rest ih =>
    by_cases hk : kv.1 = k
    · subst hk
      rw [dinsert_cons_eq kv rest v]
      rw [slookup_cons_ne (kv.1, v) rest k2 h, slookup_cons_ne kv rest k2 h]
    · rw [dinsert_cons_ne kv rest k v hk]
      by_cases h2 : kv.1 = k2
      · subst h2
        show slookup (kv :: dinsert rest k v) kv.1 = _
        simp [slookup]
      · rw [slookup_cons_ne kv _ k2 h2, slookup_cons_ne kv rest k2 h2]
        exact ih

theorem mem_skeys_dinsert (d : EnergySample) (k : String) (v : ℚ)
    (n : String) :
    n ∈ skeys (dinsert d k v) ↔ n = k ∨ n ∈ skeys d := by
  induction d with
  | nil => simp [dinsert, skeys]
  | cons kv rest ih =>
    by_cases h : kv.1 = k
    · subst h
      rw [dinsert_cons_eq kv rest v]
      simp only [skeys_cons, List.mem_cons]
      tauto
    · rw [dinsert_cons_ne kv rest k v h]
      simp only [skeys_cons, List.mem_cons, ih]
      tauto

theorem skeys_dinsert_nodup (d : EnergySample) (k : String) (v : ℚ)
    (h : (skeys d).Nodup) : (skeys (dinsert d k v)).Nodup := by
  induction d with
  | nil => simp [dinsert, skeys]
  | cons kv rest ih =>
    rw [skeys_cons, List.nodup_cons] at h
    by_cases hk : kv.1 = k
    · subst hk
      rw [dinsert_cons_eq kv rest v]
      rw [skeys_cons, List.nodup_cons]
      exact h
    · rw [dinsert_cons_ne kv rest k v hk]
      rw [skeys_cons, List.nodup_cons]
      refine ⟨?_, ih h.2⟩
      rw [mem_skeys_dinsert]
      rintro (hc | hc)
      · exact hk hc
      · exact h.1 hc

theorem read_aux_nodup (entries : List PowercapEntry) (acc : EnergySample)
    (h : (skeys acc).Nodup) :
    (skeys (read_rapl_energy_aux acc entries)).Nodup := by
  induction entries generalizing acc with
  | nil => exact h
  | cons e rest ih =>
    rcases he : e.energyFile with _ | uj
    · simp only [read_rapl_energy_aux, he]
      exact ih acc h
    · simp only [read_rapl_energy_aux, he]
      exact ih _ (skeys_dinsert_nodup acc (effName e) _ h)

theorem slookup_read_aux (entries : List PowercapEntry)
    (acc : EnergySample) (n : String) :
    slookup (read_rapl_energy_aux acc entries) n =
      (lastEnergy entries n).or (slookup acc n) := by
  induction entries generalizing acc with
  | nil => rfl
  | cons e rest ih =>
    rcases he : e.energyFile with _ | uj
    · simp only [read_rapl_energy_aux, he, lastEnergy]
      rw [ih acc]
      rcases hl : lastEnergy rest n with _ | v
      · rfl
      · rfl
    · simp only [read_rapl_energy_aux, he, lastEnergy]
      rw [ih _]
      rcases hl : lastEnergy rest n with _ | v
      · simp only [Option.or]
        by_cases hn : effName e = n
        · rw [if_pos hn, hn, slookup_dinsert_self]
        · rw [if_neg hn, slookup_dinsert_ne acc (effName e) _ n hn]
      · rfl

theorem lastEnergy_isSome_iff (entries : List PowercapEntry) (n : String) :
    (lastEnergy entries n).isSome ↔
      ∃ e ∈ entries, effName e = n ∧ e.energyFile.isSome := by
  induction entries with
  | nil => simp [lastEnergy]
  | cons e rest ih =>
    simp only [lastEnergy]
    rcases hl : lastEnergy rest n with _ | v
    · rw [hl] at ih
      rcases he : e.energyFile with _ | uj
      · simp only [Option.isSome_none, Bool.false_eq_true, false_iff] at ih ⊢
        rintro ⟨e2, h2, hprop⟩
        rcases List.mem_cons.mp h2 with rfl | h2
        · rw [he] at hprop
          exact absurd hprop.2 (by simp)
        · exact ih ⟨e2, h2, hprop⟩
      · by_cases hn : effName e = n
        · simp only [if_pos hn, Option.isSome_some, true_iff]
          exact ⟨e, List.mem_cons_self e rest, hn, by rw [he]; rfl⟩
        · simp only [if_neg hn, Option.isSome_none, Bool.false_eq_true,
            false_iff]
          simp only [Option.isSome_none, Bool.false_eq_true, false_iff] at ih
          rintro ⟨e2, h2, hprop⟩
          rcases List.mem_cons.mp h2 with rfl | h2
          · exact hn hprop.1
          · exact ih ⟨e2, h2, hprop⟩
    · simp only [Option.isSome_some, true_iff]
      rw [hl] at ih
      simp only [Option.isSome_some, true_iff] at ih
      obtain ⟨e2, h2, hprop⟩ := ih
      exact ⟨e2, List.mem_cons_of_mem e h2, hprop⟩

/-- Claim C10: the all-domain scan yields at most one entry per effective
domain name; its reading at every name is the reading of the entry
scanned last among those with that name and a readable energy counter
(earlier readings are silently overwritten); an entry with no readable
energy counter contributes no key. -/
theorem read_rapl_energy_correct (entries : List PowercapEntry) :
    (skeys (read_rapl_energy entries)).Nodup ∧
    (∀ n, slookup (read_rapl_energy entries) n = lastEnergy entries n) ∧
    (∀ n, n ∈ skeys (read_rapl_energy entries) ↔
      ∃ e ∈ entries, effName e = n ∧ e.energyFile.isSome) := by
  have hlook : ∀ n, slookup (read_rapl_energy entries) n =
      lastEnergy entries n := by
    intro n
    unfold read_rapl_energy
    rw [slookup_read_aux]
    rcases hl : lastEnergy entries n with _ | v
    · rfl
    · rfl
  refine ⟨read_aux_nodup entries [] (by simp [skeys]), hlook, fun n => ?_⟩
  rw [← slookup_isSome_iff, hlook n, lastEnergy_isSome_iff]

end PowerMeasure
